import Mathlib

/-!
Verification development for the voice-agent repository.

Shallow embedding of the worker session pipeline (Durable Object in the
worker source file) and of the WAV PCM16 encoder (src/app/lib/wav.ts).

Modelling conventions:
- JavaScript strings are modelled as lists of characters (`Str`).
- The external AI calls (Whisper transcription, the streaming chat
  completion, MeloTTS synthesis) are modelled as oracle values supplied as
  arguments: each oracle value records the outcome the external service
  would produce for the corresponding call.
- The `smoothStream` transform of the ai package, with the custom
  `chunking` callback of the worker, is modelled by `segmentCore` /
  `segmentStream`: per incoming fragment the buffer is extended and the
  chunking function is applied repeatedly, each match being emitted and
  removed from the front of the buffer; on successful stream end the
  remaining buffer is flushed as a final chunk.
- The p-queue instance with concurrency 1 is modelled by `runSerial`: a
  job starts only when the previous job has finished; each job awaits its
  synthesis call and sends its audio event only under the source's truthy
  guard `if (audioData)`, which skips both a null result (failed call)
  and an empty-string payload.
-/

set_option maxRecDepth 8192

namespace VoiceAgent

/-- JavaScript strings, modelled as lists of characters. -/
abbrev Str := List Char

/-- Coerce a Lean string literal to the character-list model. -/
def str (s : String) : Str := s.data

/-! ### Utterance segmenter

The worker configures `smoothStream` with
`chunking: (buf) => { const m = buf.match(/^(.+?[.!?])(?:\s+|$)/); if (m)
return m[0]; if (buf.length > 120) return buf; return null; }`.
The regular expression is embedded directly: `.` matches any character
except line terminators, `\s` is JavaScript whitespace, the lazy `.+?`
finds the earliest terminator position (at index at least 1) whose next
character is whitespace or the end of the buffer, and the greedy `\s+`
extends the match over the whole whitespace run. -/

/-- JavaScript `\s` on the ASCII range (space, tab, LF, CR, VT, FF). -/
def jsWs (c : Char) : Bool :=
  c = ' ' || c = '\t' || c = '\n' || c = '\r' || c = '\x0b' || c = '\x0c'

/-- JavaScript `.` (without the `s` flag): any character except a line
terminator. -/
def jsDot (c : Char) : Bool :=
  !(c = '\n' || c = '\r')

/-- The terminator class `[.!?]` of the chunking regular expression. -/
def isTerm (c : Char) : Bool :=
  c = '.' || c = '!' || c = '?'

/-- The `(?:\s+|$)` suffix test: the rest of the buffer is empty or starts
with whitespace. -/
def wsOrEnd : Str → Bool
  | [] => true
  | w :: _ => jsWs w

/-- Scan for the earliest terminator at index at least 1 whose successor
position satisfies `(?:\s+|$)`; `acc` holds the characters already
consumed by the lazy `.+?`, in reverse.  Returns the full regex match
`m[0]` (including the greedy trailing whitespace run) and the remainder of
the buffer. -/
def scanTerm (acc : Str) : Str → Option (Str × Str)
  | [] => none
  | c :: rest =>
    if isTerm c && wsOrEnd rest then
      some (acc.reverse ++ c :: rest.takeWhile jsWs, rest.dropWhile jsWs)
    else if jsDot c then
      scanTerm (c :: acc) rest
    else
      none

/-- The anchored match of `/^(.+?[.!?])(?:\s+|$)/` on a buffer: the first
character is consumed by `.+?` (so it must not be a line terminator) and
the terminator is searched from index 1 onwards. -/
def sentMatch : Str → Option (Str × Str)
  | [] => none
  | c :: rest => if jsDot c then scanTerm [c] rest else none

/-- The worker's `chunking` callback: return the sentence match if there
is one, otherwise force-cut the entire buffer once it exceeds 120
characters, otherwise no chunk. -/
def chunkFn (buf : Str) : Option Str :=
  match sentMatch buf with
  | some (m, _) => some m
  | none => if buf.length > 120 then some buf else none

/-- `smoothStream`'s inner loop: repeatedly emit the detected chunk and
drop it from the front of the buffer, until no chunk is detected.  The
fuel argument only bounds the recursion; `buf.length + 1` steps always
suffice because every emitted chunk is a non-empty prefix
(`drainF_complete` below). -/
def drainF : ℕ → Str → Str × List Str
  | 0, buf => (buf, [])
  | fuel + 1, buf =>
    match chunkFn buf with
    | none => (buf, [])
    | some m =>
      let r := drainF fuel (buf.drop m.length)
      (r.1, m :: r.2)

/-- Run the chunking loop to completion on a buffer. -/
def drain (buf : Str) : Str × List Str := drainF (buf.length + 1) buf

/-- Feed a list of stream fragments through the segmenter, threading the
buffer; returns the final buffer and the emitted chunks. -/
def segmentCore : Str → List Str → Str × List Str
  | buf, [] => (buf, [])
  | buf, f :: fs =>
    let r := drain (buf ++ f)
    let s := segmentCore r.1 fs
    (s.1, r.2 ++ s.2)

/-- All chunks emitted for a complete (successfully finished) stream:
on the finish event `smoothStream` flushes any remaining non-empty
buffer as a final chunk. -/
def segmentStream (frags : List Str) : List Str :=
  (segmentCore [] frags).2 ++
    (if (segmentCore [] frags).1 = [] then [] else [(segmentCore [] frags).1])

/-- Chunks emitted when the stream errors after the given fragments: the
flush never happens, the residual buffer is dropped. -/
def segmentNoFlush (frags : List Str) : List Str :=
  (segmentCore [] frags).2

/-- JavaScript `String.prototype.trim` on the character-list model. -/
def jsTrim (cs : Str) : Str :=
  ((cs.dropWhile jsWs).reverse.dropWhile jsWs).reverse

/-! ### Session data model and oracles -/

/-- Message roles stored in `msgHistory`. -/
inductive Role
  | user
  | assistant
  deriving DecidableEq

/-- One committed message of the conversation history. -/
structure Turn where
  role : Role
  content : Str
  deriving DecidableEq

/-- Events sent outward on the WebSocket, one JSON object each. -/
inductive OutputEvent
  | status (text : Str)
  | text (t : Str)
  | audio (text : Str) (audio : Str)
  | error (text : Str)
  deriving DecidableEq

def OutputEvent.isStatus : OutputEvent → Bool
  | .status _ => true
  | _ => false

def OutputEvent.isError : OutputEvent → Bool
  | .error _ => true
  | _ => false

def OutputEvent.isAudio : OutputEvent → Bool
  | .audio _ _ => true
  | _ => false

/-- Outcome of the external Whisper call inside `transcribeAudio`:
either it resolves with a text (possibly empty), or it throws. -/
inductive TResult
  | ok (text : Str)
  | err
  deriving DecidableEq

/-- Outcome of one external MeloTTS call inside `textToSpeech`: either it
resolves (normalised to a base64 string), or it throws. -/
inductive TTSResult
  | ok (b64 : Str)
  | err
  deriving DecidableEq

def TTSResult.isOk : TTSResult → Bool
  | .ok _ => true
  | .err => false

/-- Whether a synthesis outcome leads to an audio event being sent: the
job's `if (audioData)` is a JavaScript truthiness test, so a failed call
(null) and a call resolving with the empty string both send nothing. -/
def TTSResult.sendsAudio : TTSResult → Bool
  | .ok b => b ≠ []
  | .err => false

/-- Outcome of the streaming completion: the token fragments delivered,
and whether the stream finished normally or threw (with the error
message) after delivering them. -/
inductive StreamResult
  | ok (frags : List Str)
  | errAfter (frags : List Str) (emsg : Str)
  deriving DecidableEq

/-- `transcribeAudio`: the Whisper call is awaited inside a try/catch;
an exception is logged and turned into `null`, and an empty result text
is also turned into `null` (`result.text || null`). -/
def transcribeAudio : TResult → Option Str
  | .ok t => if t = [] then none else some t
  | .err => none

/-- `textToSpeech`: the MeloTTS call is awaited inside a try/catch; an
exception is logged and turned into `null`, otherwise the result is
normalised to a base64 string. -/
def textToSpeech : TTSResult → Option Str
  | .ok b => some b
  | .err => none

/-! ### Synthesis dispatcher (p-queue with concurrency 1)

Each non-empty trimmed sentence becomes a job added to `ttsQueue`
(`concurrency: 1`): the job awaits `textToSpeech(sentence)` and sends
the audio event only under the truthiness test `if (audioData)`, which
skips a null result and also an empty-string payload.  Jobs are tagged
with their 1-based emission index; the synthesis oracle is keyed by that
index so that distinct calls can succeed or fail independently. -/

structure Job where
  idx : ℕ
  utter : Str
  deriving DecidableEq

/-- Tag utterances with consecutive sequence indices starting at `i`. -/
def mkJobs : ℕ → List Str → List Job
  | _, [] => []
  | i, u :: us => ⟨i, u⟩ :: mkJobs (i + 1) us

/-- One executed job in the timed trace of the serial queue: its start
time, completion time, index, utterance, and the synthesis result
(`none` when the call failed).  Whether an audio event is actually sent
is decided by the truthy `if (audioData)` guard, applied in `delivered`:
a `none` result and an empty-string payload both send nothing. -/
structure TraceEntry where
  start : ℕ
  stop : ℕ
  idx : ℕ
  utter : Str
  result : Option Str
  deriving DecidableEq

/-- Timed execution of the concurrency-1 queue: job `n+1` starts exactly
when job `n` finishes (its result having been delivered at its finish
time); `lat i` is the latency of synthesis call `i`. -/
def runSerial (tts : ℕ → TTSResult) (lat : ℕ → ℕ) : ℕ → List Job → List TraceEntry
  | _, [] => []
  | t, j :: js =>
    ⟨t, t + lat j.idx, j.idx, j.utter, textToSpeech (tts j.idx)⟩ ::
      runSerial tts lat (t + lat j.idx) js

/-- The audio deliveries of a trace, in trace order, under the source's
truthy guard `if (audioData)`: a failed call (null) delivers nothing, and
so does a call that resolves with the empty string. -/
def delivered (trace : List TraceEntry) : List (ℕ × Str × Str) :=
  trace.filterMap (fun e =>
    match e.result with
    | some b => if b = [] then none else some (e.idx, e.utter, b)
    | none => none)

/-- Just the sequence indices of the delivered audio events. -/
def deliveredIdx (trace : List TraceEntry) : List ℕ :=
  (delivered trace).map (fun x => x.1)

/-- Untimed view of the serial queue: the ordered list of deliveries,
with the same truthy `if (audioData)` guard (null results and
empty-string payloads send no audio event).  `delivered_runSerial`
proves this agrees with the timed execution for every latency
assignment. -/
def dispatchDeliver (tts : ℕ → TTSResult) : List Job → List (ℕ × Str × Str)
  | [] => []
  | j :: js =>
    match textToSpeech (tts j.idx) with
    | some b =>
      if b = [] then dispatchDeliver tts js
      else (j.idx, j.utter, b) :: dispatchDeliver tts js
    | none => dispatchDeliver tts js

/-! ### Session controller (`generateAndSpeakResponse` / `handleAudioInput`) -/

/-- The chunks the segmenter hands to the response loop: with a normal
finish the residual buffer is flushed; when the stream throws it is not. -/
def utterChunks : StreamResult → List Str
  | .ok frags => segmentStream frags
  | .errAfter frags _ => segmentNoFlush frags

/-- The utterances of one assistant turn: each chunk is trimmed
(`String(chunk).trim()`) and empty results are skipped
(`if (!sentence) continue`). -/
def utterances (s : StreamResult) : List Str :=
  ((utterChunks s).map jsTrim).filter (fun u => u ≠ [])

/-- The `fullResponse` accumulator of the response loop:
`fullResponse += (fullResponse ? " " : "") + sentence` for every
non-empty trimmed sentence. -/
def accumFull (full : Str) : List Str → Str
  | [] => full
  | c :: cs =>
    if jsTrim c = [] then accumFull full cs
    else accumFull (if full = [] then jsTrim c else full ++ ' ' :: jsTrim c) cs

/-- Single-space join of a list of utterances. -/
def joinSpace : List Str → Str
  | [] => []
  | [u] => u
  | u :: us => u ++ ' ' :: joinSpace us

/-- The audio events of one turn, in delivery order of the serial queue. -/
def genAudioEvents (tts : ℕ → TTSResult) (s : StreamResult) : List OutputEvent :=
  (dispatchDeliver tts (mkJobs 1 (utterances s))).map (fun x => .audio x.2.1 x.2.2)

/-- All events sent during `generateAndSpeakResponse` (plus, on a stream
error, the error event sent by the message-listener catch block).  A
"Speaking…" status is sent per non-empty sentence; the audio events are
listed after the loop statuses (their real interleaving with statuses is
concurrent, and no claim depends on it); on an error the thrown message
is sent as an error event and no further status is sent. -/
def genEvents (tts : ℕ → TTSResult) (s : StreamResult) : List OutputEvent :=
  ((utterances s).map (fun _ => OutputEvent.status (str "Speaking…")))
    ++ genAudioEvents tts s
    ++ (match s with
        | .ok _ => []
        | .errAfter _ em => [OutputEvent.error em])

/-- `handleAudioInput` for one incoming audio payload, given the oracle
outcomes of the three external services: returns the new history and the
events sent on the socket for this turn.  An empty/null transcription
sends only the two status events and leaves history unchanged; on a
successful stream the accumulated `fullResponse` is committed as the
assistant turn and a final "Idle" status is sent; when the stream throws,
the rethrown error is caught by the message listener, which sends an
error event, and neither the assistant turn nor the final "Idle" status
happens. -/
def handleAudioInput (hist : List Turn) (tr : TResult) (s : StreamResult)
    (tts : ℕ → TTSResult) : List Turn × List OutputEvent :=
  match transcribeAudio tr with
  | none => (hist, [.status (str "Processing…"), .status (str "Idle")])
  | some txt =>
    match s with
    | .ok _ =>
      (hist ++ [⟨.user, txt⟩, ⟨.assistant, accumFull [] (utterChunks s)⟩],
       [.status (str "Processing…"), .text txt, .status (str "Speaking…")]
         ++ genEvents tts s ++ [.status (str "Idle")])
    | .errAfter _ _ =>
      (hist ++ [⟨.user, txt⟩],
       [.status (str "Processing…"), .text txt, .status (str "Speaking…")]
         ++ genEvents tts s)

/-- The JSON-command branch of the message listener: `{type:"cmd",
data:"clear"}` resets the history and sends a status event; any other
parsed message does nothing. -/
def handleCommand (hist : List Turn) (ty dat : Str) : List Turn × List OutputEvent :=
  if ty = str "cmd" && dat = str "clear" then
    ([], [.status (str "Chat cleared")])
  else
    (hist, [])

/-! ### WAV PCM16 encoder (src/app/lib/wav.ts)

`encodeWavPCM16` writes a 44-byte RIFF/WAVE header through a `DataView`
followed by the samples converted to little-endian signed 16-bit PCM.
JavaScript numbers that reach the sample conversion are modelled by
`JSNum`: NaN, the two infinities, or a finite value (every `Float32Array`
element is such a rational, and the clamp/scale arithmetic of the encoder
is exact in double precision on this range, so rationals model it
faithfully). -/

/-- A JavaScript number as seen by the sample-conversion loop. -/
inductive JSNum
  | nan
  | inf
  | ninf
  | val (q : ℚ)
  deriving DecidableEq

/-- `Math.min(1, s)`: NaN-propagating minimum with 1. -/
def jsMin1 : JSNum → JSNum
  | .nan => .nan
  | .inf => .val 1
  | .ninf => .ninf
  | .val q => .val (min 1 q)

/-- `Math.max(-1, s)`: NaN-propagating maximum with -1. -/
def jsMaxNeg1 : JSNum → JSNum
  | .nan => .nan
  | .inf => .inf
  | .ninf => .val (-1)
  | .val q => .val (max (-1) q)

/-- Line 57 of wav.ts: `Math.max(-1, Math.min(1, samples[i]))`. -/
def clampSample (s : JSNum) : JSNum := jsMaxNeg1 (jsMin1 s)

/-- Line 58: `sample < 0 ? sample * 0x8000 : sample * 0x7fff` (a `<`
comparison with NaN is false, so NaN takes the second branch). -/
def scalePcm : JSNum → JSNum
  | .nan => .nan
  | .inf => .inf
  | .ninf => .ninf
  | .val q => .val (if q < 0 then q * 32768 else q * 32767)

/-- ECMAScript ToIntegerOrInfinity truncation (toward zero) on a finite
value. -/
def jsTrunc (q : ℚ) : ℤ := if 0 ≤ q then ⌊q⌋ else ⌈q⌉

/-- The integer obtained from a scaled sample before the 16-bit wrap of
`setInt16` (ToInt16 maps NaN and the infinities to 0). -/
def pcmRaw (s : JSNum) : ℤ :=
  match scalePcm (clampSample s) with
  | .val q => jsTrunc q
  | _ => 0

/-- The modulo-2^16 wrap of ToInt16, interpreting the residue as a signed
16-bit value. -/
def wrapInt16 (i : ℤ) : ℤ :=
  if i % 65536 < 32768 then i % 65536 else i % 65536 - 65536

/-- The signed 16-bit value actually stored for one sample
(`view.setInt16(offset, pcmSample, true)`). -/
def pcmStored (s : JSNum) : ℤ := wrapInt16 (pcmRaw s)

/-- Little-endian bytes of `setUint16` (which wraps modulo 2^16; for
`v < 2^16` the two bytes below are exactly that wrap). -/
def u16le (v : ℕ) : List ℕ := [v % 256, v / 2 ^ 8 % 256]

/-- Little-endian bytes of `setUint32` (ToUint32 wraps modulo 2^32; the
four bytes below agree with the bytes of `v % 2^32`). -/
def u32le (v : ℕ) : List ℕ :=
  [v % 256, v / 2 ^ 8 % 256, v / 2 ^ 16 % 256, v / 2 ^ 24 % 256]

/-- Little-endian bytes of `setInt16`: the two's-complement residue of
the (already truncated) value. -/
def i16le (v : ℤ) : List ℕ :=
  [(v % 65536).toNat % 256, (v % 65536).toNat / 2 ^ 8 % 256]

/-- `writeString`: the character codes of an ASCII tag. -/
def asciiBytes (s : String) : List ℕ := s.data.map Char.toNat

/-- The byte buffer produced by `encodeWavPCM16(samples, sampleRate)`:
"RIFF", file size - 8, "WAVE", "fmt ", subchunk size 16, PCM format 1,
1 channel, sample rate, byte rate, block align 2, 16 bits per sample,
"data", data size, then the PCM16 samples. -/
def encodeWavPCM16 (samples : List JSNum) (sampleRate : ℕ) : List ℕ :=
  asciiBytes "RIFF" ++ u32le (44 + samples.length * 2 - 8) ++ asciiBytes "WAVE"
    ++ asciiBytes "fmt " ++ u32le 16 ++ u16le 1 ++ u16le 1
    ++ u32le sampleRate ++ u32le (sampleRate * 2) ++ u16le 2 ++ u16le 16
    ++ asciiBytes "data" ++ u32le (samples.length * 2)
    ++ samples.flatMap (fun s => i16le (pcmStored s))

/-- Decode a little-endian unsigned 16-bit field at a byte offset. -/
def readU16le (b : List ℕ) (off : ℕ) : ℕ :=
  b.getD off 0 + 2 ^ 8 * b.getD (off + 1) 0

/-- Decode a little-endian unsigned 32-bit field at a byte offset. -/
def readU32le (b : List ℕ) (off : ℕ) : ℕ :=
  b.getD off 0 + 2 ^ 8 * b.getD (off + 1) 0 + 2 ^ 16 * b.getD (off + 2) 0
    + 2 ^ 24 * b.getD (off + 3) 0

/-! ### Segmenter lemmas -/

theorem scanTerm_recon : ∀ (rest acc m rem : Str),
    scanTerm acc rest = some (m, rem) → m ++ rem = acc.reverse ++ rest ∧ m ≠ [] := by
  intro rest
  induction rest with
  | nil => intro acc m rem h; simp [scanTerm] at h
  | cons c rest ih =>
    intro acc m rem h
    rw [scanTerm] at h
    split at h
    · simp only [Option.some.injEq, Prod.mk.injEq] at h
      obtain ⟨rfl, rfl⟩ := h
      constructor
      · rw [List.append_assoc, List.cons_append, List.takeWhile_append_dropWhile]
      · simp
    · split at h
      · have := ih (c :: acc) m rem h
        rw [List.reverse_cons, List.append_assoc] at this
        simpa using this
      · simp at h

theorem sentMatch_recon {buf m rem : Str} (h : sentMatch buf = some (m, rem)) :
    m ++ rem = buf ∧ m ≠ [] := by
  cases buf with
  | nil => simp [sentMatch] at h
  | cons c rest =>
    rw [sentMatch] at h
    split at h
    · have := scanTerm_recon rest [c] m rem h
      simpa using this
    · simp at h

/-- Every chunk returned by the chunking callback is a non-empty prefix of
the buffer. -/
theorem chunkFn_pre {buf m : Str} (h : chunkFn buf = some m) :
    m ++ buf.drop m.length = buf ∧ m ≠ [] := by
  rw [chunkFn] at h
  split at h
  · next m0 rem hm =>
    rw [Option.some_inj] at h
    subst h
    obtain ⟨h1, h2⟩ := sentMatch_recon hm
    refine ⟨?_, h2⟩
    conv_lhs => rw [← h1, List.drop_left]
    exact h1
  · split at h
    · next hlen =>
      rw [Option.some_inj] at h
      subst h
      refine ⟨by simp, ?_⟩
      intro hnil
      rw [hnil] at hlen
      simp at hlen
    · simp at h

/-- The chunks drained from a buffer concatenate, with the residual
buffer, exactly back to the buffer. -/
theorem drainF_recon : ∀ (fuel : ℕ) (buf : Str),
    (drainF fuel buf).2.flatten ++ (drainF fuel buf).1 = buf := by
  intro fuel
  induction fuel with
  | zero => intro buf; simp [drainF]
  | succ fuel ih =>
    intro buf
    rw [drainF]
    cases h : chunkFn buf with
    | none => simp
    | some m =>
      obtain ⟨h1, _⟩ := chunkFn_pre h
      simp only [List.flatten_cons, List.append_assoc, ih (buf.drop m.length)]
      exact h1

theorem drain_recon (buf : Str) :
    (drain buf).2.flatten ++ (drain buf).1 = buf :=
  drainF_recon _ buf

/-- With fuel exceeding the buffer length the chunking loop runs to
completion: no chunk remains detectable in the residual buffer (this is
the state in which the real `while` loop stops). -/
theorem drainF_complete : ∀ (fuel : ℕ) (buf : Str), buf.length < fuel →
    chunkFn (drainF fuel buf).1 = none := by
  intro fuel
  induction fuel with
  | zero => intro buf h; omega
  | succ fuel ih =>
    intro buf h
    rw [drainF]
    cases hc : chunkFn buf with
    | none => simpa using hc
    | some m =>
      obtain ⟨h1, h2⟩ := chunkFn_pre hc
      have hml : 0 < m.length := List.length_pos.mpr h2
      have hle : m.length ≤ buf.length := by
        conv_rhs => rw [← h1]
        simp
      have : (buf.drop m.length).length < fuel := by
        rw [List.length_drop]; omega
      simpa using ih (buf.drop m.length) this

theorem drain_complete (buf : Str) : chunkFn (drain buf).1 = none :=
  drainF_complete _ buf (by omega)

theorem segmentCore_recon : ∀ (frags : List Str) (buf : Str),
    (segmentCore buf frags).2.flatten ++ (segmentCore buf frags).1
      = buf ++ frags.flatten := by
  intro frags
  induction frags with
  | nil => intro buf; simp [segmentCore]
  | cons f fs ih =>
    intro buf
    rw [segmentCore]
    simp only [List.flatten_append, List.append_assoc, ih (drain (buf ++ f)).1]
    rw [← List.append_assoc, drain_recon (buf ++ f), List.flatten_cons,
      List.append_assoc]

/-- Exact reconstruction: the emitted chunks of a completed stream
concatenate to the concatenation of the fragments, character for
character. -/
theorem segmentStream_flatten (frags : List Str) :
    (segmentStream frags).flatten = frags.flatten := by
  rw [segmentStream]
  have h := segmentCore_recon frags []
  simp only [List.nil_append] at h
  split
  · next he => simpa [he] using h
  · simpa using h

theorem joinSpace_cons (u : Str) (us : List Str) :
    joinSpace (u :: us) = u ++ us.flatMap (fun v => ' ' :: v) := by
  induction us generalizing u with
  | nil => simp [joinSpace]
  | cons v vs ih =>
    rw [show joinSpace (u :: v :: vs) = u ++ ' ' :: joinSpace (v :: vs) from rfl,
      ih v]
    simp

theorem accumFull_ne : ∀ (cs : List Str) (full : Str), full ≠ [] →
    accumFull full cs
      = full ++ ((cs.map jsTrim).filter (fun u => u ≠ [])).flatMap
          (fun u => ' ' :: u) := by
  intro cs
  induction cs with
  | nil => intro full _; simp [accumFull]
  | cons c cs ih =>
    intro full hfull
    rw [accumFull]
    by_cases ht : jsTrim c = []
    · rw [if_pos ht, ih full hfull]
      simp [ht]
    · rw [if_neg ht, if_neg hfull, ih (full ++ ' ' :: jsTrim c) (by simp)]
      simp [ht]

/-- The `fullResponse` accumulated by the loop is the single-space join
of the non-empty trimmed chunks. -/
theorem accumFull_join (cs : List Str) :
    accumFull [] cs = joinSpace ((cs.map jsTrim).filter (fun u => u ≠ [])) := by
  induction cs with
  | nil => simp [accumFull, joinSpace]
  | cons c cs ih =>
    rw [accumFull]
    by_cases ht : jsTrim c = []
    · rw [if_pos ht, ih]
      simp [ht]
    · rw [if_neg ht, if_pos rfl, accumFull_ne cs (jsTrim c) ht]
      simp only [List.map_cons, List.filter_cons]
      rw [if_pos (by simpa using ht), joinSpace_cons]

/-! ### Dispatcher lemmas -/

/-- The timed serial queue delivers exactly what the untimed FIFO view
delivers, for every latency assignment and start time: latencies cannot
change what is delivered or its order. -/
theorem delivered_runSerial (tts : ℕ → TTSResult) (lat : ℕ → ℕ) :
    ∀ (jobs : List Job) (t0 : ℕ),
      delivered (runSerial tts lat t0 jobs) = dispatchDeliver tts jobs := by
  intro jobs
  induction jobs with
  | nil => intro t0; rfl
  | cons j js ih =>
    intro t0
    rw [runSerial, dispatchDeliver]
    cases h : tts j.idx with
    | ok b =>
      by_cases hb : b = [] <;>
        simpa [delivered, textToSpeech, h, hb] using ih (t0 + lat j.idx)
    | err => simpa [delivered, textToSpeech, h] using ih (t0 + lat j.idx)

/-- The delivered sequence indices are exactly the indices of
`[i, i+1, ...]` whose synthesis call sends an audio event (succeeds with
a non-empty payload), in increasing order. -/
theorem dispatchDeliver_idx (tts : ℕ → TTSResult) :
    ∀ (us : List Str) (i : ℕ),
      (dispatchDeliver tts (mkJobs i us)).map (fun x => x.1)
        = (List.range' i us.length).filter (fun n => (tts n).sendsAudio) := by
  intro us
  induction us with
  | nil => intro i; rfl
  | cons u us ih =>
    intro i
    rw [mkJobs, dispatchDeliver]
    rw [show List.range' i (u :: us).length = i :: List.range' (i + 1) us.length
      from rfl]
    rw [List.filter_cons]
    cases h : tts i with
    | ok b =>
      by_cases hb : b = [] <;> simp [textToSpeech, h, hb, ih, TTSResult.sendsAudio]
    | err => simp [textToSpeech, h, ih, TTSResult.sendsAudio]

theorem chain'_lt_range' : ∀ (n s : ℕ), List.Chain' (fun a b => a < b) (List.range' s n) := by
  intro n
  induction n with
  | zero => intro s; simp
  | succ n ih =>
    intro s
    rw [show List.range' s (n + 1) = s :: List.range' (s + 1) n from rfl]
    cases n with
    | zero => simp
    | succ n =>
      rw [show List.range' (s + 1) (n + 1) = (s + 1) :: List.range' (s + 2) n
        from rfl]
      exact List.Chain'.cons (by omega)
        (by rw [← show List.range' (s + 1) (n + 1) = (s + 1) :: List.range' (s + 2) n
              from rfl]
            exact ih (s + 1))

/-- The first trace entry of the serial queue starts at the queue's
current clock. -/
theorem runSerial_head_start (tts : ℕ → TTSResult) (lat : ℕ → ℕ)
    (j : Job) (js : List Job) (t0 : ℕ) :
    ∃ e rest, runSerial tts lat t0 (j :: js) = e :: rest
      ∧ e.start = t0 ∧ e.stop = t0 + lat j.idx := by
  exact ⟨_, _, rfl, rfl, rfl⟩

/-- In the serial queue each job starts exactly when its predecessor
stops (and hence after the predecessor's delivery, which happens at its
stop time). -/
theorem runSerial_chain_start (tts : ℕ → TTSResult) (lat : ℕ → ℕ) :
    ∀ (jobs : List Job) (t0 : ℕ),
      List.Chain' (fun a e => e.start = a.stop) (runSerial tts lat t0 jobs) := by
  intro jobs
  induction jobs with
  | nil => intro t0; simp [runSerial]
  | cons j js ih =>
    intro t0
    rw [runSerial]
    cases js with
    | nil => simp [runSerial]
    | cons j2 js2 =>
      rw [runSerial]
      exact List.Chain'.cons rfl (by rw [← runSerial]; exact ih (t0 + lat j.idx))

/-- Completion (delivery) times never decrease along the trace: the trace
order is the temporal order of deliveries. -/
theorem runSerial_chain_stop (tts : ℕ → TTSResult) (lat : ℕ → ℕ) :
    ∀ (jobs : List Job) (t0 : ℕ),
      List.Chain' (fun a e => a.stop ≤ e.stop) (runSerial tts lat t0 jobs) := by
  intro jobs
  induction jobs with
  | nil => intro t0; simp [runSerial]
  | cons j js ih =>
    intro t0
    rw [runSerial]
    cases js with
    | nil => simp [runSerial]
    | cons j2 js2 =>
      rw [runSerial]
      exact List.Chain'.cons
        (show t0 + lat j.idx ≤ t0 + lat j.idx + lat j2.idx by omega)
        (by rw [← runSerial]; exact ih (t0 + lat j.idx))

/-- Claim C1: for every sequence of N utterances submitted to the
dispatcher in emission order (indices 1..N) and every latency assignment,
when each synthesis call succeeds with a non-empty payload (a truthy
`audioData`, so the event is actually sent) the results are delivered in
strictly increasing sequence-index order 1..N; adjacent trace entries
satisfy "job n+1 starts exactly when job n stops" (delivery happens at
the stop time), and stop times are monotone along the trace, so trace
order is delivery order — all independently of the latencies. -/
theorem dispatcher_delivers_in_order (us : List Str) (lat : ℕ → ℕ)
    (tts : ℕ → TTSResult) (b : ℕ → Str) (t0 : ℕ)
    (hok : ∀ i, tts i = .ok (b i)) (hne : ∀ i, b i ≠ []) :
    deliveredIdx (runSerial tts lat t0 (mkJobs 1 us)) = List.range' 1 us.length
      ∧ List.Chain' (fun m n => m < n)
          (deliveredIdx (runSerial tts lat t0 (mkJobs 1 us)))
      ∧ List.Chain' (fun a e => e.start = a.stop)
          (runSerial tts lat t0 (mkJobs 1 us))
      ∧ List.Chain' (fun a e => a.stop ≤ e.stop)
          (runSerial tts lat t0 (mkJobs 1 us)) := by
  have hidx : deliveredIdx (runSerial tts lat t0 (mkJobs 1 us))
      = List.range' 1 us.length := by
    rw [deliveredIdx, delivered_runSerial, dispatchDeliver_idx]
    apply List.filter_eq_self.mpr
    intro n _
    rw [hok n]
    simpa [TTSResult.sendsAudio] using hne n
  refine ⟨hidx, ?_, runSerial_chain_start .., runSerial_chain_stop ..⟩
  rw [hidx]
  exact chain'_lt_range' _ _

theorem dispatcher_delivers_in_order_witness :
    (∀ i, (fun _ : ℕ => TTSResult.ok (str "x")) i
        = .ok ((fun _ : ℕ => str "x") i))
    ∧ (∀ i, (fun _ : ℕ => str "x") i ≠ [])
    ∧ (deliveredIdx (runSerial (fun _ => TTSResult.ok (str "x"))
          (fun i => 40 - 10 * i) 0 (mkJobs 1 [str "a", str "b", str "c"]))
        = List.range' 1 [str "a", str "b", str "c"].length
      ∧ List.Chain' (fun m n => m < n)
          (deliveredIdx (runSerial (fun _ => TTSResult.ok (str "x"))
            (fun i => 40 - 10 * i) 0 (mkJobs 1 [str "a", str "b", str "c"])))
      ∧ List.Chain' (fun a e => e.start = a.stop)
          (runSerial (fun _ => TTSResult.ok (str "x"))
            (fun i => 40 - 10 * i) 0 (mkJobs 1 [str "a", str "b", str "c"]))
      ∧ List.Chain' (fun a e => a.stop ≤ e.stop)
          (runSerial (fun _ => TTSResult.ok (str "x"))
            (fun i => 40 - 10 * i) 0 (mkJobs 1 [str "a", str "b", str "c"]))) :=
  ⟨fun _ => rfl, fun _ => by show str "x" ≠ []; decide,
    dispatcher_delivers_in_order [str "a", str "b", str "c"]
      (fun i => 40 - 10 * i) (fun _ => TTSResult.ok (str "x"))
      (fun _ => str "x") 0 (fun _ => rfl)
      (fun _ => by show str "x" ≠ []; decide)⟩

/-- Claim C2: if the synthesis call for utterance k fails and all other
calls succeed with non-empty payloads (so their audio events pass the
truthy `if (audioData)` guard), the delivered sequence of indices is
exactly 1..N with k omitted: no audio event for k, and every subsequent
utterance is still delivered, in order, for every latency assignment. -/
theorem dispatcher_skips_failed_call (us : List Str) (lat : ℕ → ℕ)
    (tts : ℕ → TTSResult) (k : ℕ) (b : ℕ → Str) (t0 : ℕ)
    (hk : tts k = .err) (hok : ∀ i, i ≠ k → tts i = .ok (b i))
    (hne : ∀ i, i ≠ k → b i ≠ []) :
    deliveredIdx (runSerial tts lat t0 (mkJobs 1 us))
        = (List.range' 1 us.length).filter (fun n => n ≠ k)
      ∧ k ∉ deliveredIdx (runSerial tts lat t0 (mkJobs 1 us))
      ∧ ∀ j ∈ List.range' 1 us.length, j ≠ k →
          j ∈ deliveredIdx (runSerial tts lat t0 (mkJobs 1 us)) := by
  have hidx : deliveredIdx (runSerial tts lat t0 (mkJobs 1 us))
      = (List.range' 1 us.length).filter (fun n => n ≠ k) := by
    rw [deliveredIdx, delivered_runSerial, dispatchDeliver_idx]
    apply List.filter_congr
    intro n _
    by_cases hn : n = k
    · subst hn; rw [hk]; simp [TTSResult.sendsAudio]
    · rw [hok n hn]; simp [TTSResult.sendsAudio, hn, hne n hn]
  refine ⟨hidx, ?_, ?_⟩
  · rw [hidx]
    intro hmem
    have := List.of_mem_filter hmem
    simp at this
  · intro j hj hjk
    rw [hidx]
    exact List.mem_filter.mpr ⟨hj, by simpa using hjk⟩

theorem dispatcher_skips_failed_call_witness :
    ((fun i : ℕ => if i = 2 then TTSResult.err else TTSResult.ok (str "x")) 2
        = TTSResult.err)
    ∧ (∀ i : ℕ, i ≠ 2 →
        (fun i : ℕ => if i = 2 then TTSResult.err else TTSResult.ok (str "x")) i
          = .ok ((fun _ : ℕ => str "x") i))
    ∧ (∀ i : ℕ, i ≠ 2 → (fun _ : ℕ => str "x") i ≠ [])
    ∧ (deliveredIdx (runSerial
          (fun i => if i = 2 then TTSResult.err else TTSResult.ok (str "x"))
          (fun _ => 5) 0 (mkJobs 1 [str "a", str "b", str "c"]))
        = (List.range' 1 [str "a", str "b", str "c"].length).filter
            (fun n => n ≠ 2)
      ∧ 2 ∉ deliveredIdx (runSerial
          (fun i => if i = 2 then TTSResult.err else TTSResult.ok (str "x"))
          (fun _ => 5) 0 (mkJobs 1 [str "a", str "b", str "c"]))
      ∧ ∀ j ∈ List.range' 1 [str "a", str "b", str "c"].length, j ≠ 2 →
          j ∈ deliveredIdx (runSerial
            (fun i => if i = 2 then TTSResult.err else TTSResult.ok (str "x"))
            (fun _ => 5) 0 (mkJobs 1 [str "a", str "b", str "c"]))) :=
  ⟨rfl, fun i hi => by simp [hi], fun i _ => by show str "x" ≠ []; decide,
    dispatcher_skips_failed_call [str "a", str "b", str "c"] (fun _ => 5)
      (fun i => if i = 2 then TTSResult.err else TTSResult.ok (str "x")) 2
      (fun _ => str "x") 0 rfl (fun i hi => by simp [hi])
      (fun i _ => by show str "x" ≠ []; decide)⟩

/-! ### Session-controller theorems -/

/-- Counterexample to claim C3 as stated: for the single-fragment stream
"A.  B." (two spaces between the sentences) the single-space join of the
trimmed utterances is "A. B.", which differs from the trimmed full
response text "A.  B.". -/
theorem join_differs_from_trimmed_text :
    joinSpace (utterances (.ok [str "A.  B."]))
      ≠ jsTrim ([str "A.  B."].flatten) := by
  decide

/-- Claim C3 (amended): the raw Segmenter-emitted chunks of one turn,
concatenated in sequence order, reconstruct the full assistant response
text exactly; the trimmed non-empty utterances joined with single spaces
form the accumulated `fullResponse`, and that joined text is exactly what
is committed as the assistant Turn in history (it can differ from the
trimmed full text only in whitespace at utterance boundaries). -/
theorem segmenter_reconstructs_response (frags : List Str)
    (tts : ℕ → TTSResult) (hist : List Turn) (t : Str) (ht : t ≠ []) :
    (segmentStream frags).flatten = frags.flatten
      ∧ (handleAudioInput hist (.ok t) (.ok frags) tts).1
          = hist ++ [⟨.user, t⟩, ⟨.assistant, joinSpace (utterances (.ok frags))⟩] := by
  refine ⟨segmentStream_flatten frags, ?_⟩
  rw [handleAudioInput, transcribeAudio, if_neg ht]
  rw [show utterances (.ok frags)
    = ((utterChunks (StreamResult.ok frags)).map jsTrim).filter (fun u => u ≠ [])
    from rfl, ← accumFull_join]

theorem segmenter_reconstructs_response_witness :
    str "y" ≠ []
    ∧ ((segmentStream [str "Hi. ", str "Yes."]).flatten
          = [str "Hi. ", str "Yes."].flatten
      ∧ (handleAudioInput [] (.ok (str "y")) (.ok [str "Hi. ", str "Yes."])
          (fun _ => .ok (str "b"))).1
          = [] ++ [⟨.user, str "y"⟩,
              ⟨.assistant, joinSpace (utterances (.ok [str "Hi. ", str "Yes."]))⟩]) :=
  ⟨by decide,
    segmenter_reconstructs_response [str "Hi. ", str "Yes."]
      (fun _ => .ok (str "b")) [] (str "y") (by decide)⟩

/-- Counterexample to claim C4 as stated: when the transcription call
throws (oracle `TResult.err`), the exception is caught inside
`transcribeAudio` and converted to null, so the session emits only the
two status events and no error OutputEvent at all — contradicting the
claim that an error event carrying a sanitized message is emitted. -/
theorem transcription_failure_emits_no_error_event :
    handleAudioInput [] .err (.ok []) (fun _ => .err)
        = ([], [.status (str "Processing…"), .status (str "Idle")])
      ∧ ((handleAudioInput [] .err (.ok []) (fun _ => .err)).2.all
          (fun e => !e.isError)) = true := by
  constructor
  · rfl
  · decide

/-- Claim C4 (amended): an exception of the transcription call is
swallowed inside `transcribeAudio` (treated as an empty transcription):
the turn is dropped with only status events, no error event, history
unchanged, and the machine returns to Idle.  An exception of the
completion invocation aborts the turn: the message-listener catch emits
an error OutputEvent carrying the thrown message, no assistant Turn is
committed, and the user Turn already committed before the failure remains
in history. -/
theorem abort_preserves_history (hist : List Turn) (s : StreamResult)
    (tts : ℕ → TTSResult) (t : Str) (frags : List Str) (em : Str)
    (ht : t ≠ []) :
    handleAudioInput hist .err s tts
        = (hist, [.status (str "Processing…"), .status (str "Idle")])
      ∧ (handleAudioInput hist (.ok t) (.errAfter frags em) tts).1
          = hist ++ [⟨.user, t⟩]
      ∧ OutputEvent.error em
          ∈ (handleAudioInput hist (.ok t) (.errAfter frags em) tts).2 := by
  refine ⟨rfl, ?_, ?_⟩
  · rw [handleAudioInput, transcribeAudio, if_neg ht]
  · rw [handleAudioInput, transcribeAudio, if_neg ht]
    simp [genEvents]

theorem abort_preserves_history_witness :
    str "y" ≠ []
    ∧ (handleAudioInput [] .err (.ok []) (fun _ => .err)
          = ([], [.status (str "Processing…"), .status (str "Idle")])
      ∧ (handleAudioInput [] (.ok (str "y")) (.errAfter [str "Hi."] (str "boom"))
            (fun _ => .err)).1 = [] ++ [⟨.user, str "y"⟩]
      ∧ OutputEvent.error (str "boom")
          ∈ (handleAudioInput [] (.ok (str "y"))
              (.errAfter [str "Hi."] (str "boom")) (fun _ => .err)).2) :=
  ⟨by decide,
    abort_preserves_history [] (.ok []) (fun _ => .err) (str "y")
      [str "Hi."] (str "boom") (by decide)⟩

/-- Claim C5: an audio payload whose transcription is null or empty
leaves history unchanged, emits only status events ("Processing…" then
"Idle") — in particular no text, no audio and no error event — and the
machine goes straight back to Idle. -/
theorem empty_transcription_is_noop (hist : List Turn) (tr : TResult)
    (s : StreamResult) (tts : ℕ → TTSResult)
    (h : transcribeAudio tr = none) :
    handleAudioInput hist tr s tts
        = (hist, [.status (str "Processing…"), .status (str "Idle")])
      ∧ ∀ e ∈ (handleAudioInput hist tr s tts).2, e.isStatus = true := by
  have heq : handleAudioInput hist tr s tts
      = (hist, [.status (str "Processing…"), .status (str "Idle")]) := by
    rw [handleAudioInput, h]
  refine ⟨heq, ?_⟩
  rw [heq]
  intro e he
  simp only [List.mem_cons, List.not_mem_nil, or_false] at he
  rcases he with rfl | rfl <;> rfl

theorem empty_transcription_is_noop_witness :
    transcribeAudio (.ok []) = none
    ∧ (handleAudioInput [⟨.user, str "hi"⟩] (.ok []) (.ok [])
          (fun _ => .ok (str "b"))
        = ([⟨.user, str "hi"⟩],
            [.status (str "Processing…"), .status (str "Idle")])
      ∧ ∀ e ∈ (handleAudioInput [⟨.user, str "hi"⟩] (.ok []) (.ok [])
          (fun _ => .ok (str "b"))).2, e.isStatus = true) :=
  ⟨rfl, empty_transcription_is_noop [⟨.user, str "hi"⟩] (.ok []) (.ok [])
    (fun _ => .ok (str "b")) rfl⟩

/-- Claim C6: when no terminal-punctuation cut is available and the
buffer exceeds 120 characters, the chunking callback force-cuts the
entire buffer as one utterance, leaving an empty buffer that continues
accumulating; concretely, a 200-character fragment with no terminal
punctuation is emitted as a single force-cut utterance. -/
theorem force_cut_emits_whole_buffer (buf : Str)
    (h1 : sentMatch buf = none) (h2 : 120 < buf.length) :
    chunkFn buf = some buf
      ∧ drain buf = ([], [buf])
      ∧ segmentStream [List.replicate 200 'a'] = [List.replicate 200 'a']
      ∧ (segmentCore [] [List.replicate 200 'a']).1 = [] := by
  have hc : chunkFn buf = some buf := by
    rw [chunkFn, h1, if_pos h2]
  refine ⟨hc, ?_, by decide, by decide⟩
  rw [drain, drainF, hc]
  simp only [List.drop_length]
  have : ∀ fuel, drainF fuel ([] : Str) = ([], []) := by
    intro fuel
    cases fuel with
    | zero => rfl
    | succ fuel => rfl
  rw [this]

theorem force_cut_emits_whole_buffer_witness :
    sentMatch (List.replicate 121 'b') = none
    ∧ 120 < (List.replicate 121 'b').length
    ∧ (chunkFn (List.replicate 121 'b') = some (List.replicate 121 'b')
      ∧ drain (List.replicate 121 'b') = ([], [List.replicate 121 'b'])
      ∧ segmentStream [List.replicate 200 'a'] = [List.replicate 200 'a']
      ∧ (segmentCore [] [List.replicate 200 'a']).1 = []) :=
  ⟨by decide, by decide,
    force_cut_emits_whole_buffer (List.replicate 121 'b') (by decide) (by decide)⟩

/-- Claim C7: the transcript "Hello there. How are you?" arriving as the
three fragments "Hel", "lo there. How are", " you?" yields exactly the
two utterances "Hello there." then "How are you?". -/
theorem hello_there_two_utterances :
    utterances (.ok [str "Hel", str "lo there. How are", str " you?"])
      = [str "Hello there.", str "How are you?"] := by
  decide

/-- Claim C8: a clear-history command empties the Turn list and sends a
status event; with no turns recorded it is a no-op on history, and in no
case is an error event emitted. -/
theorem clear_command_resets_history (hist : List Turn) :
    handleCommand hist (str "cmd") (str "clear")
        = ([], [.status (str "Chat cleared")])
      ∧ ∀ e ∈ (handleCommand hist (str "cmd") (str "clear")).2,
          e.isError = false := by
  have heq : handleCommand hist (str "cmd") (str "clear")
      = ([], [.status (str "Chat cleared")]) := by
    rw [handleCommand, if_pos (by decide)]
  refine ⟨heq, ?_⟩
  rw [heq]
  intro e he
  simp only [List.mem_cons, List.not_mem_nil, or_false] at he
  rw [he]
  rfl

/-! ### WAV encoder theorems -/

theorem jsTrunc_intCast (n : ℤ) : jsTrunc (n : ℚ) = n := by
  rw [jsTrunc]
  split
  · exact Int.floor_intCast n
  · exact Int.ceil_intCast n

theorem wrapInt16_eq_self {i : ℤ} (h1 : -32768 ≤ i) (h2 : i ≤ 32767) :
    wrapInt16 i = i := by
  rw [wrapInt16]
  omega

/-- Reduction of the sample conversion on a finite value: clamp to
[-1, 1], scale by the branch-dependent factor, truncate. -/
theorem pcmRaw_val (q : ℚ) :
    pcmRaw (.val q) = jsTrunc (if max (-1) (min 1 q) < 0
      then max (-1) (min 1 q) * 32768 else max (-1) (min 1 q) * 32767) := rfl

/-- The integer produced for one sample, before the 16-bit wrap, always
lies in the signed 16-bit range: finite samples are clamped to [-1, 1]
and scaled, NaN and the infinities reach the store as 0 or ±1 before
scaling. -/
theorem pcmRaw_bounds (s : JSNum) : -32768 ≤ pcmRaw s ∧ pcmRaw s ≤ 32767 := by
  cases s with
  | nan => constructor <;> decide
  | inf =>
    have h : pcmRaw .inf = jsTrunc (if max (-1 : ℚ) 1 < 0
        then max (-1 : ℚ) 1 * 32768 else max (-1 : ℚ) 1 * 32767) := rfl
    rw [h, show max (-1 : ℚ) 1 = 1 by norm_num, if_neg (by norm_num), one_mul,
      show (32767 : ℚ) = ((32767 : ℤ) : ℚ) by norm_num, jsTrunc_intCast]
    constructor <;> norm_num
  | ninf =>
    have h : pcmRaw .ninf = jsTrunc (if (-1 : ℚ) < 0
        then (-1 : ℚ) * 32768 else (-1 : ℚ) * 32767) := rfl
    rw [h, if_pos (by norm_num),
      show (-1 : ℚ) * 32768 = ((-32768 : ℤ) : ℚ) by norm_num, jsTrunc_intCast]
    constructor <;> norm_num
  | val q =>
    rw [pcmRaw_val]
    have hlo : (-1 : ℚ) ≤ max (-1) (min 1 q) := le_max_left _ _
    have hhi : max (-1) (min 1 q) ≤ 1 :=
      max_le (by norm_num) (min_le_left _ _)
    set c : ℚ := max (-1) (min 1 q) with hc
    by_cases hneg : c < 0
    · rw [if_pos hneg, jsTrunc,
        if_neg (not_le.mpr (mul_neg_of_neg_of_pos hneg (by norm_num)))]
      have h1 : (-32768 : ℚ) ≤ c * 32768 := by nlinarith
      have h2 : c * 32768 ≤ 0 := by nlinarith
      constructor
      · calc (-32768 : ℤ) = ⌈((-32768 : ℤ) : ℚ)⌉ := (Int.ceil_intCast _).symm
          _ ≤ ⌈c * 32768⌉ := Int.ceil_mono (by exact_mod_cast h1)
      · calc ⌈c * 32768⌉ ≤ ⌈(0 : ℚ)⌉ := Int.ceil_mono h2
          _ ≤ 32767 := by norm_num
    · have h0 : (0 : ℚ) ≤ c := not_lt.mp hneg
      rw [if_neg hneg, jsTrunc, if_pos (by positivity)]
      have h2 : c * 32767 ≤ 32767 := by nlinarith
      constructor
      · calc (-32768 : ℤ) ≤ ⌊(0 : ℚ)⌋ := by norm_num
          _ ≤ ⌊c * 32767⌋ := Int.floor_mono (by positivity)
      · calc ⌊c * 32767⌋ ≤ ⌊((32767 : ℤ) : ℚ)⌋ := Int.floor_mono (by exact_mod_cast h2)
          _ = 32767 := Int.floor_intCast _

/-- Claim C10: for every input sample — including NaN, infinities, and
finite values outside [-1, 1] — the 16-bit value written into the data
section lies within [-32768, 32767]; no modulo wrap occurs (the stored
value equals the pre-wrap truncated value), and out-of-range finite
samples are silently clamped: anything at least 1 stores 32767 and
anything at most -1 stores -32768. -/
theorem pcm_values_within_int16_range :
    (∀ s : JSNum, -32768 ≤ pcmStored s ∧ pcmStored s ≤ 32767
        ∧ pcmStored s = pcmRaw s)
      ∧ (∀ q : ℚ, 1 ≤ q → pcmStored (.val q) = 32767)
      ∧ (∀ q : ℚ, q ≤ -1 → pcmStored (.val q) = -32768) := by
  have hstored : ∀ s : JSNum, pcmStored s = pcmRaw s := by
    intro s
    obtain ⟨h1, h2⟩ := pcmRaw_bounds s
    rw [pcmStored]
    exact wrapInt16_eq_self h1 h2
  refine ⟨?_, ?_, ?_⟩
  · intro s
    obtain ⟨h1, h2⟩ := pcmRaw_bounds s
    rw [hstored s]
    exact ⟨h1, h2, rfl⟩
  · intro q hq
    rw [hstored, pcmRaw_val, min_eq_left hq,
      show max (-1 : ℚ) 1 = 1 by norm_num, if_neg (by norm_num), one_mul,
      show (32767 : ℚ) = ((32767 : ℤ) : ℚ) by norm_num, jsTrunc_intCast]
  · intro q hq
    rw [hstored, pcmRaw_val, min_eq_right (le_trans hq (by norm_num)),
      max_eq_left hq, if_pos (by norm_num),
      show (-1 : ℚ) * 32768 = ((-32768 : ℤ) : ℚ) by norm_num, jsTrunc_intCast]

theorem pcm_values_within_int16_range_witness :
    (1 : ℚ) ≤ 2 ∧ (-5 : ℚ) ≤ -1
      ∧ (-32768 ≤ pcmStored .nan ∧ pcmStored .nan ≤ 32767
          ∧ pcmStored .nan = pcmRaw .nan)
      ∧ pcmStored (.val 2) = 32767 ∧ pcmStored (.val (-5)) = -32768 :=
  ⟨by norm_num, by norm_num, pcm_values_within_int16_range.1 .nan,
    pcm_values_within_int16_range.2.1 2 (by norm_num),
    pcm_values_within_int16_range.2.2 (-5) (by norm_num)⟩

theorem flatMap_i16le_length : ∀ ss : List JSNum,
    (ss.flatMap (fun s => i16le (pcmStored s))).length = 2 * ss.length := by
  intro ss
  induction ss with
  | nil => rfl
  | cons s ss ih =>
    rw [List.flatMap_cons, List.length_append, ih,
      show (i16le (pcmStored s)).length = 2 from rfl, List.length_cons]
    omega

/-- The encoder output in explicit byte form: the 44 header bytes
followed by the PCM16 data. -/
theorem encodeWav_cons (samples : List JSNum) (r : ℕ) :
    encodeWavPCM16 samples r =
      82 :: 73 :: 70 :: 70 ::
      ((44 + samples.length * 2 - 8) % 256) ::
      ((44 + samples.length * 2 - 8) / 2 ^ 8 % 256) ::
      ((44 + samples.length * 2 - 8) / 2 ^ 16 % 256) ::
      ((44 + samples.length * 2 - 8) / 2 ^ 24 % 256) ::
      87 :: 65 :: 86 :: 69 ::
      102 :: 109 :: 116 :: 32 ::
      16 :: 0 :: 0 :: 0 ::
      1 :: 0 ::
      1 :: 0 ::
      (r % 256) :: (r / 2 ^ 8 % 256) :: (r / 2 ^ 16 % 256) :: (r / 2 ^ 24 % 256) ::
      (r * 2 % 256) :: (r * 2 / 2 ^ 8 % 256) :: (r * 2 / 2 ^ 16 % 256) ::
      (r * 2 / 2 ^ 24 % 256) ::
      2 :: 0 ::
      16 :: 0 ::
      100 :: 97 :: 116 :: 97 ::
      (samples.length * 2 % 256) :: (samples.length * 2 / 2 ^ 8 % 256) ::
      (samples.length * 2 / 2 ^ 16 % 256) :: (samples.length * 2 / 2 ^ 24 % 256) ::
      samples.flatMap (fun s => i16le (pcmStored s)) := by
  rw [encodeWavPCM16, show asciiBytes "RIFF" = [82, 73, 70, 70] by decide,
    show asciiBytes "WAVE" = [87, 65, 86, 69] by decide,
    show asciiBytes "fmt " = [102, 109, 116, 32] by decide,
    show asciiBytes "data" = [100, 97, 116, 97] by decide]
  rfl

theorem encodeWav_length (samples : List JSNum) (r : ℕ) :
    (encodeWavPCM16 samples r).length = 44 + 2 * samples.length := by
  rw [encodeWav_cons]
  simp only [List.length_cons, flatMap_i16le_length samples]
  omega

/-- Counterexample to claim C9 as stated: `setUint32` wraps modulo 2^32,
so for the sample rate 2^32 the header field at offset 24 decodes to 0,
not to the supplied rate. -/
theorem wav_sample_rate_field_wraps :
    readU32le (encodeWavPCM16 [] (2 ^ 32)) 24 ≠ 2 ^ 32 := by
  decide

/-- Claim C9 (amended): for every sample list and every sample rate
r < 2^32 with data size 2N < 2^32 (the header fields are 32-bit and wrap
modulo 2^32 beyond that), the encoded buffer is 44 + 2N bytes long and
its header decodes to sample rate r at offset 24, channel count 1 at
offset 22, bit depth 16 at offset 34, and data-chunk size 2N at offset
40, all little-endian. -/
theorem wav_header_fields_roundtrip (samples : List JSNum) (r : ℕ)
    (hr : r < 2 ^ 32) (hd : 2 * samples.length < 2 ^ 32) :
    (encodeWavPCM16 samples r).length = 44 + 2 * samples.length
      ∧ readU32le (encodeWavPCM16 samples r) 24 = r
      ∧ readU16le (encodeWavPCM16 samples r) 22 = 1
      ∧ readU16le (encodeWavPCM16 samples r) 34 = 16
      ∧ readU32le (encodeWavPCM16 samples r) 40 = 2 * samples.length := by
  have hc := encodeWav_cons samples r
  have e22 : (encodeWavPCM16 samples r).getD 22 0 = 1 := by rw [hc]; rfl
  have e23 : (encodeWavPCM16 samples r).getD (22 + 1) 0 = 0 := by rw [hc]; rfl
  have e24 : (encodeWavPCM16 samples r).getD 24 0 = r % 256 := by rw [hc]; rfl
  have e25 : (encodeWavPCM16 samples r).getD (24 + 1) 0 = r / 2 ^ 8 % 256 := by
    rw [hc]; rfl
  have e26 : (encodeWavPCM16 samples r).getD (24 + 2) 0 = r / 2 ^ 16 % 256 := by
    rw [hc]; rfl
  have e27 : (encodeWavPCM16 samples r).getD (24 + 3) 0 = r / 2 ^ 24 % 256 := by
    rw [hc]; rfl
  have e34 : (encodeWavPCM16 samples r).getD 34 0 = 16 := by rw [hc]; rfl
  have e35 : (encodeWavPCM16 samples r).getD (34 + 1) 0 = 0 := by rw [hc]; rfl
  have e40 : (encodeWavPCM16 samples r).getD 40 0
      = samples.length * 2 % 256 := by rw [hc]; rfl
  have e41 : (encodeWavPCM16 samples r).getD (40 + 1) 0
      = samples.length * 2 / 2 ^ 8 % 256 := by rw [hc]; rfl
  have e42 : (encodeWavPCM16 samples r).getD (40 + 2) 0
      = samples.length * 2 / 2 ^ 16 % 256 := by rw [hc]; rfl
  have e43 : (encodeWavPCM16 samples r).getD (40 + 3) 0
      = samples.length * 2 / 2 ^ 24 % 256 := by rw [hc]; rfl
  refine ⟨encodeWav_length samples r, ?_, ?_, ?_, ?_⟩
  · rw [readU32le, e24, e25, e26, e27]
    omega
  · rw [readU16le, e22, e23]
    norm_num
  · rw [readU16le, e34, e35]
    norm_num
  · rw [readU32le, e40, e41, e42, e43]
    omega

theorem wav_header_fields_roundtrip_witness :
    16000 < 2 ^ 32 ∧ 2 * [JSNum.val 0, JSNum.val 1].length < 2 ^ 32
      ∧ ((encodeWavPCM16 [JSNum.val 0, JSNum.val 1] 16000).length
            = 44 + 2 * [JSNum.val 0, JSNum.val 1].length
        ∧ readU32le (encodeWavPCM16 [JSNum.val 0, JSNum.val 1] 16000) 24 = 16000
        ∧ readU16le (encodeWavPCM16 [JSNum.val 0, JSNum.val 1] 16000) 22 = 1
        ∧ readU16le (encodeWavPCM16 [JSNum.val 0, JSNum.val 1] 16000) 34 = 16
        ∧ readU32le (encodeWavPCM16 [JSNum.val 0, JSNum.val 1] 16000) 40
            = 2 * [JSNum.val 0, JSNum.val 1].length) :=
  ⟨by norm_num, by norm_num,
    wav_header_fields_roundtrip [JSNum.val 0, JSNum.val 1] 16000
      (by norm_num) (by norm_num)⟩

end VoiceAgent
